import Mathlib

/-!
# Model of the KITTI format adapter and configuration

A shallow embedding of `src/backend/workers/lib/vod_converter/kitti.py`
(classes `KITTIIngestor` and `KITTIEgestor`) and of
`src/backend/config/config.py` (class `Config`).

Conventions of the embedding:

* The file system is a record `FS`: the content of `train.txt`, a map from
  full path strings to image dimensions (`none` models a file that is missing
  or cannot be decoded, so `os.path.exists` is false / `Image.open` raises),
  and a map from full path strings to the rows of a labels file (`none`
  models a missing file, so `open` raises `FileNotFoundError`).
* A CSV cell (space-delimited field) is modelled by `Cell`: `Cell.num q` is
  a piece of text that Python `float()` parses to the value `q` (values are
  exact rationals; Python float round-trips `repr`-exactly, so writing and
  re-reading a value is the identity at this level of abstraction), and
  `Cell.str s` is text that `float()` rejects with `ValueError`.
* Python string helpers (`str.strip`, `str.split`) are re-implemented
  structurally over `List Char` (`pyStrip`, `pySplit`) with Python's
  semantics for an explicit separator; whitespace is ASCII whitespace.
* An operation that can raise an exception that escapes the function returns
  an `Option`: `none` is the raise. A caught exception that the code turns
  into `message(...)` plus a skip is modelled by the skip (for
  `_get_detections`, a warning counter is kept alongside the result).
* `os.path.join(root, a, b)` is modelled as `root ++ "/" ++ a ++ "/" ++ b`,
  which matches `os.path.join` for a root that is not slash-terminated.
-/

namespace VodConverter

/-- One space-delimited field of a KITTI labels file, as the `csv` module
hands it to the code: `num q` is text that `float()` parses to `q`,
`str s` is text on which `float()` raises `ValueError`. -/
inductive Cell where
  | num (q : ℚ)
  | str (s : String)
deriving DecidableEq, Repr

/-- Python `float()` applied to a cell: `some` the value, or `none` for the
`ValueError` case. -/
def floatOf : Cell → Option ℚ
  | .num q => some q
  | .str _ => none

/-- Python `str.strip()` on a character list: drop ASCII whitespace from both
ends. -/
def stripChars (l : List Char) : List Char :=
  ((l.dropWhile Char.isWhitespace).reverse.dropWhile Char.isWhitespace).reverse

/-- Python `str.strip()`. -/
def pyStrip (s : String) : String :=
  ⟨stripChars s.data⟩

/-- Python `str.split(sep)` for a one-character separator `sep`: the result is
never empty, and splitting the empty string yields `[[]]` (Python:
`"".split("\n") == [""]`). -/
def pySplit (c : Char) : List Char → List (List Char)
  | [] => [[]]
  | d :: rest =>
    if d = c then [] :: pySplit c rest
    else
      match pySplit c rest with
      | h :: t => (d :: h) :: t
      | [] => [[d]]

/-- Python `s.split(sep)` on strings. -/
def pySplitStr (c : Char) (s : String) : List String :=
  (pySplit c s.data).map fun l => ⟨l⟩

/-- The canonical `Detection` dict built by `KITTIIngestor._get_detections`.
The fields the code always sets to the same constant (`area`, `segmentation`,
`isbbox`, `iscrowd`, `keypoints`) are kept so the record is the full dict. -/
structure Detection where
  id : String
  image_id : String
  label : Cell
  left : ℚ
  right : ℚ
  top : ℚ
  bottom : ℚ
  area : Option ℚ
  segmentation : Option Unit
  isbbox : Bool
  iscrowd : Bool
  keypoints : List Unit
deriving DecidableEq, Repr

/-- The `image` dict built by `KITTIIngestor._get_image_detection`. -/
structure ImageRecord where
  id : String
  dataset_id : Option String
  path : String
  segmented_path : Option String
  width : Nat
  height : Nat
  file_name : String
deriving DecidableEq, Repr

/-- The canonical unit passed from ingestor to egestor: an image record plus
its detections. -/
structure ImageDetections where
  image : ImageRecord
  detections : List Detection
deriving DecidableEq, Repr

/-- The on-disk state a conversion run reads: `trainTxt` is the content of
`root/train.txt`; `image p` is `some (w, h)` when the file at full path `p`
exists and decodes to a `w × h` image, `none` when it is missing (then
`os.path.exists p` is false and `Image.open p` raises); `labels p` is the
parsed row list of the labels file at full path `p`, `none` when missing. -/
structure FS where
  trainTxt : String
  image : String → Option (Nat × Nat)
  labels : String → Option (List (List Cell))

/-- `os.path.join(root, "images", f"{id}.{ext}")`. -/
def imagePath (root image_id ext : String) : String :=
  root ++ "/images/" ++ image_id ++ "." ++ ext

/-- `os.path.join(root, "labels", f"{id}.txt")`. -/
def labelsPath (root image_id : String) : String :=
  root ++ "/labels/" ++ image_id ++ ".txt"

/-- `x1, y1, x2, y2 = map(float, row[4:8])`: `some` iff the slice has exactly
four cells and each parses as a float; otherwise the unpacking or a `float()`
call raises `ValueError`. -/
def boxOf (row : List Cell) : Option (ℚ × ℚ × ℚ × ℚ) :=
  match (row.drop 4).take 4 with
  | [a, b, c, d] =>
    match floatOf a, floatOf b, floatOf c, floatOf d with
    | some x1, some y1, some x2, some y2 => some (x1, y1, x2, y2)
    | _, _, _, _ => none
  | _ => none

namespace KITTIIngestor

/-- `KITTIIngestor._get_detections`, on the rows of one labels file: empty
rows are skipped silently, a row whose box columns fail `float` parsing is
skipped with one warning (`message`), every other row appends one detection.
Returns the detections in row order together with the number of warnings. -/
def get_detections (image_id : String) : List (List Cell) → List Detection × Nat
  | [] => ([], 0)
  | [] :: rest => get_detections image_id rest
  | (c0 :: cs) :: rest =>
    let res := get_detections image_id rest
    match boxOf (c0 :: cs) with
    | some (x1, y1, x2, y2) =>
      ({ id := image_id, image_id := image_id, label := c0,
         left := x1, right := x2, top := y1, bottom := y2,
         area := none, segmentation := none, isbbox := true,
         iscrowd := false, keypoints := [] } :: res.1, res.2)
    | none => (res.1, res.2 + 1)

/-- `KITTIIngestor._get_image_ids`: `f.read().strip().split("\n")`. -/
def get_image_ids (fs : FS) : List String :=
  pySplitStr '\n' (pyStrip fs.trainTxt)

/-- `KITTIIngestor.find_image_ext`: try `png` then `jpg` under `root/images/`;
`none` models the `raise Exception(...)` when neither file exists. -/
def find_image_ext (root : String) (fs : FS) (image_id : String) : Option String :=
  ["png", "jpg"].find? fun ext => (fs.image (imagePath root image_id ext)).isSome

/-- `KITTIIngestor._get_image_detection`: parse the labels file, filter out
degenerate boxes, open the image for its dimensions, and build the record.
Any exception (missing labels file, missing/undecodable image) is caught,
reported via `message`, and the method returns `None`. -/
def get_image_detection (root : String) (fs : FS) (image_id : String)
    (image_ext : String) : Option ImageDetections :=
  match fs.labels (labelsPath root image_id) with
  | none => none
  | some rows =>
    let detections := (get_detections image_id rows).1.filter fun det =>
      decide (det.left < det.right) && decide (det.top < det.bottom)
    let image_path := imagePath root image_id image_ext
    match fs.image image_path with
    | none => none
    | some wh =>
      some { image := { id := image_id, dataset_id := none, path := image_path,
                        segmented_path := none, width := wh.1, height := wh.2,
                        file_name := image_id ++ "." ++ image_ext },
             detections := detections }

/-- `KITTIIngestor.ingest`: read the manifest ids, probe the image extension
for the first id only (an uncaught `find_image_ext` exception aborts the whole
call: result `none`), then map `_get_image_detection` with that single
extension over every id, in manifest order. -/
def ingest (root : String) (fs : FS) : Option (List (Option ImageDetections)) :=
  let image_ids := get_image_ids fs
  let extOpt : Option String :=
    if image_ids.length ≠ 0 then find_image_ext root fs image_ids.headI
    else some "png"
  extOpt.map fun image_ext =>
    image_ids.map fun image_name => get_image_detection root fs image_name image_ext

end KITTIIngestor

/-- `DEFAULT_TRUNCATED = 0.0  # 0% truncated`. -/
def DEFAULT_TRUNCATED : ℚ := 0

/-- `DEFAULT_OCCLUDED = 0  # fully visible`. -/
def DEFAULT_OCCLUDED : ℚ := 0

/-- Index of the last occurrence of `c` in `l`, or `-1` when absent: Python
`str.rfind`. -/
def lastIdx (c : Char) (l : List Char) : Int :=
  match l.reverse.findIdx? (fun d => d = c) with
  | some i => (l.length : Int) - 1 - (i : Int)
  | none => -1

/-- The extension part of CPython `os.path.splitext(p)` (posix): the suffix
from the last dot, provided that dot comes after the last slash and at least
one character strictly between the slash and the dot is not a dot (a leading
dot of the file name does not start an extension). -/
def pySplitextExt (p : String) : String :=
  let l := p.data
  let sepIndex := lastIdx '/' l
  let dotIndex := lastIdx '.' l
  if dotIndex > sepIndex then
    if ((l.drop (sepIndex + 1).toNat).take (dotIndex - sepIndex - 1).toNat).any
        (fun d => d ≠ '.') then
      ⟨l.drop dotIndex.toNat⟩
    else ""
  else ""

namespace KITTIEgestor

/-- The 15-cell labels row `KITTIEgestor.egest` writes for one detection:
start from `[-1] * 15`, set the label, `DEFAULT_TRUNCATED`,
`DEFAULT_OCCLUDED`, then slice-assign `kitti_row[4:8] = x1, y1, x2, y2`
(left, top, right, bottom). Written values re-read as their exact cell. -/
def kittiRow (detection : Detection) : List Cell :=
  let row0 := List.replicate 15 (Cell.num (-1))
  let row1 := row0.set 0 detection.label
  let row2 := row1.set 1 (Cell.num DEFAULT_TRUNCATED)
  let row3 := row2.set 2 (Cell.num DEFAULT_OCCLUDED)
  row3.take 4 ++
    [Cell.num detection.left, Cell.num detection.top,
     Cell.num detection.right, Cell.num detection.bottom] ++
    row3.drop 8

/-- The writes `KITTIEgestor.egest` performs on a fresh target directory:
the manifest lines appended to `train.txt` in order; the files copied into
`images/` as `(destination file name, source path)` pairs in order; the
labels files written into `labels/` as `(file name, rows)` pairs in order. -/
structure EgestResult where
  manifestLines : List String
  copiedImages : List (String × String)
  labelFiles : List (String × List (List Cell))
deriving DecidableEq, Repr

/-- `KITTIEgestor.egest` on a fresh target: for each image-detections record,
try to copy the source image (`srcExists` is `os.path` existence of the
source path; a missing source raises `FileNotFoundError`, which is caught,
reported, and skips the record entirely with `continue`); on success append
the id to the manifest and write the labels file of `kittiRow`-encoded
detections. -/
def egest (srcExists : String → Bool) : List ImageDetections → EgestResult
  | [] => ⟨[], [], []⟩
  | item :: rest =>
    let image := item.image
    let image_id := image.id
    let src_extension := pySplitextExt image.path
    if srcExists image.path then
      let r := egest srcExists rest
      { manifestLines := image_id :: r.manifestLines,
        copiedImages := (image_id ++ src_extension, image.path) :: r.copiedImages,
        labelFiles := (image_id ++ ".txt", item.detections.map kittiRow) :: r.labelFiles }
    else
      egest srcExists rest

end KITTIEgestor

end VodConverter

namespace BackendConfig

/-- A Python value a `Config` attribute can hold: a string from the
environment, or the non-string default passed to `os.getenv`. -/
inductive ConfigVal where
  | str (s : String)
  | int (n : Int)
deriving DecidableEq, Repr

/-- `os.getenv(name, default)` over an environment `env` (a partial map from
variable names to their string values): the variable's string value when set,
otherwise the default. -/
def getenv (env : String → Option String) (name : String) (default : ConfigVal) :
    ConfigVal :=
  match env name with
  | some v => .str v
  | none => default

/-- `Config.WORKER_CONNECTIONS = os.getenv("CELERY_RESULT_BACKEND", 1000)`. -/
def WORKER_CONNECTIONS (env : String → Option String) : ConfigVal :=
  getenv env "CELERY_RESULT_BACKEND" (.int 1000)

/-- `Config.CELERY_RESULT_BACKEND = os.getenv("CELERY_RESULT_BACKEND",
r"mongodb://database/flask")`. -/
def CELERY_RESULT_BACKEND (env : String → Option String) : ConfigVal :=
  getenv env "CELERY_RESULT_BACKEND" (.str "mongodb://database/flask")

end BackendConfig

namespace VodConverter

/-- The box coordinates of a detection, in the order the labels file carries
them: `(left, top, right, bottom)`. -/
def boxQuad (d : Detection) : ℚ × ℚ × ℚ × ℚ :=
  (d.left, d.top, d.right, d.bottom)

/-- The successfully ingested records of a run, as the conversion pipeline
(out of scope of this repository slice) would pass them from ingestor to
egestor: the per-id results with the failed (`None`) images dropped. -/
def ingestedItems (root : String) (fs : FS) (ext : String) : List ImageDetections :=
  ((KITTIIngestor.get_image_ids fs).map fun i =>
    KITTIIngestor.get_image_detection root fs i ext).reduceOption

/-- A dataset whose manifest references id `a` with no image file on disk
(`b` has one): used to exhibit how `ingest` behaves on a missing image that
is the first manifest id. -/
def fsMissingFirst : FS where
  trainTxt := "a\nb"
  image := fun p => if p = "r/images/b.png" then some (5, 5) else none
  labels := fun p =>
    if p = "r/labels/a.txt" then some []
    else if p = "r/labels/b.txt" then some [] else none

/-- A dataset whose first manifest id `a` has its image, while id `b` has
none under any extension. -/
def fsMissingSecond : FS where
  trainTxt := "a\nb"
  image := fun p => if p = "r/images/a.png" then some (5, 5) else none
  labels := fun p =>
    if p = "r/labels/a.txt" then some []
    else if p = "r/labels/b.txt" then some [] else none

/-- A dataset with one image and a labels file holding exactly 3
non-degenerate rows and 2 degenerate rows (one with `left = right`, one with
`top = bottom`). -/
def fsDegenerate : FS where
  trainTxt := "a"
  image := fun p => if p = "r/images/a.png" then some (10, 10) else none
  labels := fun p =>
    if p = "r/labels/a.txt" then
      some [[Cell.str "Car", Cell.num 0, Cell.num 0, Cell.num 0,
             Cell.num 0, Cell.num 0, Cell.num 10, Cell.num 10],
            [Cell.str "Van", Cell.num 0, Cell.num 0, Cell.num 0,
             Cell.num 1, Cell.num 1, Cell.num 5, Cell.num 6],
            [Cell.str "Truck", Cell.num 0, Cell.num 0, Cell.num 0,
             Cell.num 2, Cell.num 2, Cell.num 9, Cell.num 9],
            [Cell.str "Car", Cell.num 0, Cell.num 0, Cell.num 0,
             Cell.num 5, Cell.num 0, Cell.num 5, Cell.num 10],
            [Cell.str "Car", Cell.num 0, Cell.num 0, Cell.num 0,
             Cell.num 0, Cell.num 7, Cell.num 10, Cell.num 7]]
    else none

/-- The record `ingest` produces for `fsDegenerate`: only the three
non-degenerate detections survive. -/
def recDegenerate : ImageDetections where
  image := { id := "a", dataset_id := none, path := "r/images/a.png",
             segmented_path := none, width := 10, height := 10,
             file_name := "a.png" }
  detections :=
    [{ id := "a", image_id := "a", label := Cell.str "Car",
       left := 0, right := 10, top := 0, bottom := 10,
       area := none, segmentation := none, isbbox := true,
       iscrowd := false, keypoints := [] },
     { id := "a", image_id := "a", label := Cell.str "Van",
       left := 1, right := 5, top := 1, bottom := 6,
       area := none, segmentation := none, isbbox := true,
       iscrowd := false, keypoints := [] },
     { id := "a", image_id := "a", label := Cell.str "Truck",
       left := 2, right := 9, top := 2, bottom := 9,
       area := none, segmentation := none, isbbox := true,
       iscrowd := false, keypoints := [] }]

/-- A labels-file content with two parsable rows around one row whose box
columns are not numeric. -/
def rowsMalformed : List (List Cell) :=
  [[Cell.str "Car", Cell.num 0, Cell.num 0, Cell.num 0,
    Cell.num 0, Cell.num 0, Cell.num 4, Cell.num 4],
   [Cell.str "Van", Cell.num 0, Cell.num 0, Cell.num 0,
    Cell.str "oops", Cell.num 0, Cell.num 5, Cell.num 5],
   [Cell.str "Truck", Cell.num 0, Cell.num 0, Cell.num 0,
    Cell.num 1, Cell.num 1, Cell.num 6, Cell.num 6]]

/-- A dataset whose images are stored with mixed extensions: the first
manifest id `a` only as `a.png`, the second id `b` only as `b.jpg`. -/
def fsMixedExt : FS where
  trainTxt := "a\nb"
  image := fun p =>
    if p = "r/images/a.png" then some (5, 5)
    else if p = "r/images/b.jpg" then some (5, 5) else none
  labels := fun p =>
    if p = "r/labels/a.txt" then some []
    else if p = "r/labels/b.txt" then some [] else none

/-- A dataset where id `a` exists both as `a.png` and as `a.jpg`. -/
def fsBothExt : FS where
  trainTxt := "a"
  image := fun p =>
    if p = "r/images/a.png" then some (5, 5)
    else if p = "r/images/a.jpg" then some (5, 5) else none
  labels := fun p => if p = "r/labels/a.txt" then some [] else none

/-- A dataset where id `b` exists only as `b.jpg`. -/
def fsJpgOnly : FS where
  trainTxt := "b"
  image := fun p => if p = "r/images/b.jpg" then some (5, 5) else none
  labels := fun p => if p = "r/labels/b.txt" then some [] else none

/-- A dataset whose `train.txt` holds only whitespace. -/
def fsBlankManifest : FS where
  trainTxt := " \n\t "
  image := fun _ => none
  labels := fun _ => none

/-- Source-file existence oracle for the egestor examples: only
`s/images/a.png` exists. -/
def exEgest : String → Bool := fun p => p = "s/images/a.png"

/-- Egestor input: one record whose source image exists, one whose source
image is missing. -/
def itemsEgest : List ImageDetections :=
  [{ image := { id := "a", dataset_id := none, path := "s/images/a.png",
                segmented_path := none, width := 4, height := 4,
                file_name := "a.png" },
     detections :=
       [{ id := "a", image_id := "a", label := Cell.str "Car",
          left := 1, right := 3, top := 1, bottom := 2,
          area := none, segmentation := none, isbbox := true,
          iscrowd := false, keypoints := [] }] },
   { image := { id := "b", dataset_id := none, path := "s/images/b.png",
                segmented_path := none, width := 4, height := 4,
                file_name := "b.png" },
     detections := [] }]

/-- Rows of the round-trip example's labels file for image `a`. -/
def rowsRoundA : List (List Cell) :=
  [[Cell.str "Car", Cell.num 0, Cell.num 0, Cell.num 0,
    Cell.num 1, Cell.num 1, Cell.num 5, Cell.num 6]]

/-- Rows of the round-trip example's labels file for image `b`. -/
def rowsRoundB : List (List Cell) :=
  [[Cell.str "Van", Cell.num 0, Cell.num 0, Cell.num 0,
    Cell.num 0, Cell.num 2, Cell.num 3, Cell.num 7],
   [Cell.str "Car", Cell.num 0, Cell.num 0, Cell.num 0,
    Cell.num 2, Cell.num 0, Cell.num 8, Cell.num 4]]

/-- A well-formed two-image dataset (all images under the probed extension,
all labels rows parsable and non-degenerate) for the round-trip claim. -/
def fsRound : FS where
  trainTxt := "a\nb"
  image := fun p =>
    if p = "r/images/a.png" then some (8, 8)
    else if p = "r/images/b.png" then some (8, 8) else none
  labels := fun p =>
    if p = "r/labels/a.txt" then some rowsRoundA
    else if p = "r/labels/b.txt" then some rowsRoundB
    else none

/-- The environment used to witness the `WORKER_CONNECTIONS` claim: only
`CELERY_RESULT_BACKEND` is set. -/
def envCelery : String → Option String := fun n =>
  if n = "CELERY_RESULT_BACKEND" then some "redis://results" else none

theorem pySplit_ne_nil (c : Char) (l : List Char) : pySplit c l ≠ [] := by
  induction l with
  | nil => simp [pySplit]
  | cons d rest ih =>
    by_cases h : d = c
    · simp [pySplit, h]
    · cases hr : pySplit c rest with
      | nil => exact absurd hr ih
      | cons a t => simp [pySplit, h, hr]

theorem get_image_ids_ne_nil (fs : FS) : KITTIIngestor.get_image_ids fs ≠ [] := by
  unfold KITTIIngestor.get_image_ids pySplitStr
  intro h
  exact pySplit_ne_nil '\n' (pyStrip fs.trainTxt).data (List.map_eq_nil_iff.mp h)

namespace KITTIIngestor

theorem ingest_eq_some_of_find (root : String) (fs : FS) (ext : String)
    (h : find_image_ext root fs (get_image_ids fs).headI = some ext) :
    ingest root fs =
      some ((get_image_ids fs).map fun i => get_image_detection root fs i ext) := by
  unfold ingest
  have hne : (get_image_ids fs).length ≠ 0 :=
    fun hlen => get_image_ids_ne_nil fs (List.length_eq_zero.mp hlen)
  simp [hne, h]

theorem ingest_eq_none_of_find (root : String) (fs : FS)
    (h : find_image_ext root fs (get_image_ids fs).headI = none) :
    ingest root fs = none := by
  unfold ingest
  have hne : (get_image_ids fs).length ≠ 0 :=
    fun hlen => get_image_ids_ne_nil fs (List.length_eq_zero.mp hlen)
  simp [hne, h]

theorem get_image_detection_of_image_missing (root : String) (fs : FS)
    (image_id ext : String) (h : fs.image (imagePath root image_id ext) = none) :
    get_image_detection root fs image_id ext = none := by
  unfold get_image_detection
  cases hl : fs.labels (labelsPath root image_id) with
  | none => rfl
  | some rows => simp [hl, h]

theorem get_image_detection_detections (root : String) (fs : FS)
    (image_id ext : String) (rec : ImageDetections)
    (h : get_image_detection root fs image_id ext = some rec) :
    ∀ d ∈ rec.detections, d.left < d.right ∧ d.top < d.bottom := by
  intro d hd
  unfold get_image_detection at h
  cases hl : fs.labels (labelsPath root image_id) with
  | none => rw [hl] at h; simp at h
  | some rows =>
    rw [hl] at h
    cases hi : fs.image (imagePath root image_id ext) with
    | none => simp only [hi] at h; exact absurd h (by simp)
    | some wh =>
      simp only [hi, Option.some.injEq] at h
      rw [← h] at hd
      simp only [List.mem_filter, Bool.and_eq_true, decide_eq_true_eq] at hd
      exact ⟨hd.2.1, hd.2.2⟩

theorem get_detections_count (image_id : String) (rows : List (List Cell)) :
    (get_detections image_id rows).1.length =
      (rows.countP fun r => !r.isEmpty && (boxOf r).isSome) ∧
    (get_detections image_id rows).2 =
      (rows.countP fun r => !r.isEmpty && !(boxOf r).isSome) := by
  induction rows with
  | nil => simp [get_detections]
  | cons row rest ih =>
    cases row with
    | nil => simpa [get_detections, List.countP_cons] using ih
    | cons c0 cs =>
      cases hb : boxOf (c0 :: cs) with
      | none => simp [get_detections, hb, List.countP_cons, ih.1, ih.2]
      | some q =>
        obtain ⟨x1, y1, x2, y2⟩ := q
        simp [get_detections, hb, List.countP_cons, ih.1, ih.2]

theorem get_detections_all_parse (image_id : String) (rows : List (List Cell))
    (h : ∀ r ∈ rows, r ≠ [] ∧ (boxOf r).isSome) :
    (get_detections image_id rows).1.map boxQuad = rows.filterMap boxOf ∧
    (get_detections image_id rows).2 = 0 := by
  induction rows with
  | nil => simp [get_detections]
  | cons row rest ih =>
    have hrow := h row (List.mem_cons_self row rest)
    have hrest : ∀ r ∈ rest, r ≠ [] ∧ (boxOf r).isSome :=
      fun r hr => h r (List.mem_cons_of_mem row hr)
    cases row with
    | nil => exact absurd rfl hrow.1
    | cons c0 cs =>
      obtain ⟨q, hq⟩ := Option.isSome_iff_exists.mp hrow.2
      obtain ⟨x1, y1, x2, y2⟩ := q
      have hih := ih hrest
      simp [get_detections, hq, List.filterMap_cons, boxQuad, hih.1, hih.2]

theorem ingest_entries (root : String) (fs : FS) (out : List (Option ImageDetections))
    (h : ingest root fs = some out) :
    ∃ ext, out = (get_image_ids fs).map fun i => get_image_detection root fs i ext := by
  cases hf : find_image_ext root fs (get_image_ids fs).headI with
  | none => rw [ingest_eq_none_of_find root fs hf] at h; exact absurd h (by simp)
  | some ext =>
    rw [ingest_eq_some_of_find root fs ext hf] at h
    exact ⟨ext, (Option.some.inj h).symm⟩

end KITTIIngestor

namespace KITTIEgestor

theorem egest_manifestLines (ex : String → Bool) (items : List ImageDetections) :
    (egest ex items).manifestLines =
      (items.filter fun it => ex it.image.path).map fun it => it.image.id := by
  induction items with
  | nil => rfl
  | cons item rest ih =>
    cases h : ex item.image.path with
    | false => simp [egest, h, ih]
    | true => simp [egest, h, ih]

theorem egest_copiedImages (ex : String → Bool) (items : List ImageDetections) :
    (egest ex items).copiedImages =
      (items.filter fun it => ex it.image.path).map fun it =>
        (it.image.id ++ pySplitextExt it.image.path, it.image.path) := by
  induction items with
  | nil => rfl
  | cons item rest ih =>
    cases h : ex item.image.path with
    | false => simp [egest, h, ih]
    | true => simp [egest, h, ih]

theorem egest_labelFiles (ex : String → Bool) (items : List ImageDetections) :
    (egest ex items).labelFiles =
      (items.filter fun it => ex it.image.path).map fun it =>
        (it.image.id ++ ".txt", it.detections.map kittiRow) := by
  induction items with
  | nil => rfl
  | cons item rest ih =>
    cases h : ex item.image.path with
    | false => simp [egest, h, ih]
    | true => simp [egest, h, ih]

theorem kittiRow_eq (d : Detection) :
    kittiRow d =
      [d.label, Cell.num 0, Cell.num 0, Cell.num (-1),
       Cell.num d.left, Cell.num d.top, Cell.num d.right, Cell.num d.bottom,
       Cell.num (-1), Cell.num (-1), Cell.num (-1), Cell.num (-1),
       Cell.num (-1), Cell.num (-1), Cell.num (-1)] := rfl

theorem boxOf_kittiRow (d : Detection) :
    boxOf (kittiRow d) = some (d.left, d.top, d.right, d.bottom) := by
  rw [kittiRow_eq]; rfl

theorem get_detections_reparse (image_id : String) (dets : List Detection) :
    (KITTIIngestor.get_detections image_id (dets.map kittiRow)).1.map boxQuad =
      dets.map boxQuad := by
  induction dets with
  | nil => rfl
  | cons d rest ih =>
    have hb : boxOf (kittiRow d) = some (d.left, d.top, d.right, d.bottom) :=
      boxOf_kittiRow d
    rw [kittiRow_eq] at hb
    rw [List.map_cons, kittiRow_eq]
    simp [KITTIIngestor.get_detections, hb, boxQuad, ih]

end KITTIEgestor

theorem filter_eq_self_of_all {α : Type} (p : α → Bool) (l : List α)
    (h : ∀ a ∈ l, p a = true) : l.filter p = l := by
  induction l with
  | nil => rfl
  | cons a t ih =>
    rw [List.filter_cons, if_pos (h a (List.mem_cons_self a t))]
    rw [ih fun x hx => h x (List.mem_cons_of_mem a hx)]

theorem reduceOption_map_some {α : Type} (l : List α) :
    (l.map some).reduceOption = l := by
  induction l with
  | nil => rfl
  | cons a t ih => simp [List.reduceOption_cons_of_some, ih]

theorem exists_forall₂_of_mem {α β : Type} {P : α → β → Prop} :
    ∀ l : List α, (∀ a ∈ l, ∃ b, P a b) → ∃ bs, List.Forall₂ P l bs := by
  intro l h
  induction l with
  | nil => exact ⟨[], List.Forall₂.nil⟩
  | cons a t ih =>
    obtain ⟨b, hb⟩ := h a (List.mem_cons_self a t)
    obtain ⟨bs, hbs⟩ := ih fun x hx => h x (List.mem_cons_of_mem a hx)
    exact ⟨b :: bs, List.Forall₂.cons hb hbs⟩

theorem forall₂_map_eq {α β γ : Type} {F : α → γ} {G : β → γ}
    {l : List α} {bs : List β}
    (h : List.Forall₂ (fun a b => F a = G b) l bs) : l.map F = bs.map G := by
  induction h with
  | nil => rfl
  | cons h1 _ ih => simp only [List.map_cons, h1, ih]

theorem forall₂_mem_right {α β : Type} {R : α → β → Prop}
    {l : List α} {bs : List β}
    (h : List.Forall₂ R l bs) : ∀ b ∈ bs, ∃ a ∈ l, R a b := by
  induction h with
  | nil => intro b hb; exact absurd hb (by simp)
  | cons h1 _ ih =>
    intro b hb
    rcases List.mem_cons.mp hb with hb | hb
    · exact ⟨_, List.mem_cons_self _ _, by rw [hb]; exact h1⟩
    · obtain ⟨a, ha, hr⟩ := ih b hb
      exact ⟨a, List.mem_cons_of_mem _ ha, hr⟩

theorem get_image_detection_wellformed (root : String) (fs : FS)
    (image_id ext : String) (rows : List (List Cell))
    (himg : (fs.image (imagePath root image_id ext)).isSome = true)
    (hl : fs.labels (labelsPath root image_id) = some rows)
    (hrows : ∀ r ∈ rows, r ≠ [] ∧
      ∃ x1 y1 x2 y2, boxOf r = some (x1, y1, x2, y2) ∧ x1 < x2 ∧ y1 < y2) :
    ∃ rec, KITTIIngestor.get_image_detection root fs image_id ext = some rec ∧
      rec.image.id = image_id ∧ rec.image.path = imagePath root image_id ext ∧
      rec.detections.map boxQuad = rows.filterMap boxOf := by
  obtain ⟨wh, hwh⟩ := Option.isSome_iff_exists.mp himg
  have hparse : ∀ r ∈ rows, r ≠ [] ∧ (boxOf r).isSome := by
    intro r hr
    obtain ⟨hne, x1, y1, x2, y2, hq, _, _⟩ := hrows r hr
    exact ⟨hne, by simp [hq]⟩
  have hall := KITTIIngestor.get_detections_all_parse image_id rows hparse
  have hfilter : (KITTIIngestor.get_detections image_id rows).1.filter
      (fun det => decide (det.left < det.right) && decide (det.top < det.bottom)) =
      (KITTIIngestor.get_detections image_id rows).1 := by
    apply filter_eq_self_of_all
    intro d hd
    have hq : boxQuad d ∈ rows.filterMap boxOf := by
      rw [← hall.1]
      exact List.mem_map_of_mem boxQuad hd
    obtain ⟨r, hr, hbr⟩ := List.mem_filterMap.mp hq
    obtain ⟨_, x1, y1, x2, y2, hq2, hx, hy⟩ := hrows r hr
    rw [hq2] at hbr
    have h5 : (x1, y1, x2, y2) = (d.left, d.top, d.right, d.bottom) :=
      Option.some.inj hbr
    simp only [Prod.mk.injEq] at h5
    obtain ⟨e1, e2, e3, e4⟩ := h5
    rw [← e1, ← e2, ← e3, ← e4]
    simp [hx, hy]
  refine ⟨{ image := { id := image_id, dataset_id := none,
                       path := imagePath root image_id ext,
                       segmented_path := none, width := wh.1, height := wh.2,
                       file_name := image_id ++ "." ++ ext },
            detections := (KITTIIngestor.get_detections image_id rows).1 },
          ?_, rfl, rfl, hall.1⟩
  unfold KITTIIngestor.get_image_detection
  rw [hl]
  simp only [hwh, hfilter]

/-- C2: after row parsing, every detection with `left ≥ right` or
`top ≥ bottom` is removed, so no record returned by `KITTIIngestor.ingest`
contains a degenerate box; and a labels file with exactly 3 non-degenerate
and 2 degenerate rows yields exactly 3 detections for that image. -/
theorem ingest_excludes_degenerate_boxes :
    (∀ root fs out, KITTIIngestor.ingest root fs = some out →
      ∀ rec : ImageDetections, some rec ∈ out →
        ∀ d ∈ rec.detections, d.left < d.right ∧ d.top < d.bottom) ∧
    KITTIIngestor.ingest "r" fsDegenerate = some [some recDegenerate] ∧
    recDegenerate.detections.length = 3 := by
  refine ⟨?_, by decide, by decide⟩
  intro root fs out h rec hrec d hd
  obtain ⟨ext, rfl⟩ := KITTIIngestor.ingest_entries root fs out h
  obtain ⟨i, _, hgi⟩ := List.mem_map.mp hrec
  exact KITTIIngestor.get_image_detection_detections root fs i ext rec hgi d hd

/-- C2 witness: the general part applied to the concrete degenerate-row
dataset, at its first surviving detection. -/
theorem ingest_excludes_degenerate_boxes_witness :
    (0 : ℚ) < 10 ∧ (0 : ℚ) < 10 := by
  have h := ingest_excludes_degenerate_boxes.1 "r" fsDegenerate
    [some recDegenerate] (by decide) recDegenerate (by decide)
  exact h (recDegenerate.detections.head (by decide)) (by decide)

/-- C3: a labels row whose box columns fail numeric parsing is skipped with
one warning while every other (nonempty) row of the file still parses: with
exactly one unparsable row among N nonempty rows, `_get_detections` returns
N - 1 detections and 1 warning, and it raises nothing (it is a total
function in this model; the `ValueError` is caught inside). -/
theorem malformed_row_skipped :
    ∀ (image_id : String) (rows : List (List Cell)),
      (∀ r ∈ rows, r ≠ []) →
      rows.countP (fun r => !(boxOf r).isSome) = 1 →
      (KITTIIngestor.get_detections image_id rows).1.length = rows.length - 1 ∧
      (KITTIIngestor.get_detections image_id rows).2 = 1 := by
  intro image_id rows hne h1
  have hc := KITTIIngestor.get_detections_count image_id rows
  have he : ∀ r ∈ rows, r.isEmpty = false := by
    intro r hr
    cases r with
    | nil => exact absurd rfl (hne [] hr)
    | cons a t => rfl
  have hlen : (rows.countP fun r => !r.isEmpty && (boxOf r).isSome) =
      rows.countP fun r => (boxOf r).isSome := by
    apply List.countP_congr
    intro r hr
    simp [he r hr]
  have hwarn : (rows.countP fun r => !r.isEmpty && !(boxOf r).isSome) =
      rows.countP fun r => !(boxOf r).isSome := by
    apply List.countP_congr
    intro r hr
    simp [he r hr]
  have hsum : rows.length = (rows.countP fun r => (boxOf r).isSome) +
      (rows.countP fun r => !(boxOf r).isSome) := by
    rw [List.length_eq_countP_add_countP (fun r => (boxOf r).isSome) rows]
    congr 1
    apply List.countP_congr
    intro r _
    by_cases hb : (boxOf r).isSome <;> simp [hb]
  constructor
  · rw [hc.1, hlen]
    omega
  · rw [hc.2, hwarn, h1]

/-- C3 witness: the concrete three-row file with one malformed row yields two
detections and one warning. -/
theorem malformed_row_skipped_witness :
    (KITTIIngestor.get_detections "a" rowsMalformed).1.length =
      rowsMalformed.length - 1 ∧
    (KITTIIngestor.get_detections "a" rowsMalformed).2 = 1 :=
  malformed_row_skipped "a" rowsMalformed (by decide) (by decide)

/-- C7: the annotation row written per egested detection has exactly 15
space-delimited fields: the label first, then the fixed
`DEFAULT_TRUNCATED = 0.0` and `DEFAULT_OCCLUDED = 0` placeholders, the box
as left, top, right, bottom in fields 5-8, and `-1` everywhere else; and the
labels files `KITTIEgestor.egest` writes consist exactly of these rows. -/
theorem kitti_row_layout :
    (∀ d : Detection,
      (KITTIEgestor.kittiRow d).length = 15 ∧
      KITTIEgestor.kittiRow d =
        [d.label, Cell.num DEFAULT_TRUNCATED, Cell.num DEFAULT_OCCLUDED,
         Cell.num (-1), Cell.num d.left, Cell.num d.top, Cell.num d.right,
         Cell.num d.bottom, Cell.num (-1), Cell.num (-1), Cell.num (-1),
         Cell.num (-1), Cell.num (-1), Cell.num (-1), Cell.num (-1)]) ∧
    ∀ (ex : String → Bool) (items : List ImageDetections),
      ((KITTIEgestor.egest ex items).labelFiles).map Prod.snd =
        (items.filter fun it => ex it.image.path).map fun it =>
          it.detections.map KITTIEgestor.kittiRow := by
  constructor
  · intro d
    exact ⟨by rw [KITTIEgestor.kittiRow_eq]; rfl, KITTIEgestor.kittiRow_eq d⟩
  · intro ex items
    rw [KITTIEgestor.egest_labelFiles]
    simp

/-- C8: the sequence `ingest` returns has one entry per manifest id, in
exactly the line order of the (stripped) `train.txt`: the i-th output entry
is the record computed for the i-th manifest id. -/
theorem ingest_follows_manifest_order :
    ∀ root fs ext,
      KITTIIngestor.find_image_ext root fs
        (KITTIIngestor.get_image_ids fs).headI = some ext →
      KITTIIngestor.get_image_ids fs = pySplitStr '\n' (pyStrip fs.trainTxt) ∧
      KITTIIngestor.ingest root fs =
        some ((KITTIIngestor.get_image_ids fs).map fun i =>
          KITTIIngestor.get_image_detection root fs i ext) ∧
      ∀ out, KITTIIngestor.ingest root fs = some out →
        out.length = (KITTIIngestor.get_image_ids fs).length ∧
        ∀ i (h1 : i < out.length) (h2 : i < (KITTIIngestor.get_image_ids fs).length),
          out.get ⟨i, h1⟩ =
            KITTIIngestor.get_image_detection root fs
              ((KITTIIngestor.get_image_ids fs).get ⟨i, h2⟩) ext := by
  intro root fs ext hf
  have hing := KITTIIngestor.ingest_eq_some_of_find root fs ext hf
  refine ⟨rfl, hing, ?_⟩
  intro out hout
  rw [hing] at hout
  have hmap := (Option.some.inj hout).symm
  subst hmap
  constructor
  · simp
  · intro i h1 h2
    simp

/-- C8 witness: the order statement applied to the concrete mixed-extension
dataset (both ids appear, in manifest order). -/
theorem ingest_follows_manifest_order_witness :
    KITTIIngestor.ingest "r" fsMixedExt =
      some ((KITTIIngestor.get_image_ids fsMixedExt).map fun i =>
        KITTIIngestor.get_image_detection "r" fsMixedExt i "png") :=
  (ingest_follows_manifest_order "r" fsMixedExt "png" (by decide)).2.1

/-- C9: when `train.txt` is empty or all whitespace, `_get_image_ids`
returns `[""]` (never `[]`), so `ingest` probes `images/.png` and
`images/.jpg` and, when neither exists, raises instead of returning an empty
sequence. -/
theorem empty_manifest_single_empty_id :
    ∀ root fs, pyStrip fs.trainTxt = "" →
      KITTIIngestor.get_image_ids fs = [""] ∧
      (fs.image (imagePath root "" "png") = none →
       fs.image (imagePath root "" "jpg") = none →
       KITTIIngestor.ingest root fs = none) := by
  intro root fs hstrip
  have hids : KITTIIngestor.get_image_ids fs = [""] := by
    unfold KITTIIngestor.get_image_ids
    rw [hstrip]
    rfl
  refine ⟨hids, ?_⟩
  intro h1 h2
  apply KITTIIngestor.ingest_eq_none_of_find
  rw [hids]
  simp [KITTIIngestor.find_image_ext, List.find?, h1, h2]

/-- C9 witness: a whitespace-only manifest produces the single empty id and
an aborted ingestion. -/
theorem empty_manifest_single_empty_id_witness :
    KITTIIngestor.get_image_ids fsBlankManifest = [""] ∧
    KITTIIngestor.ingest "r" fsBlankManifest = none := by
  have h := empty_manifest_single_empty_id "r" fsBlankManifest (by decide)
  exact ⟨h.1, h.2 rfl rfl⟩

/-- C10: `Config.WORKER_CONNECTIONS` reads the `CELERY_RESULT_BACKEND`
environment variable: when that variable is set the attribute is its string
value (identical to `Config.CELERY_RESULT_BACKEND`), it equals the integer
1000 exactly when the variable is unset, and it never depends on a variable
named `WORKER_CONNECTIONS` (any two environments agreeing on
`CELERY_RESULT_BACKEND` give the same value). -/
theorem worker_connections_reads_celery_backend :
    ∀ env : String → Option String,
      (∀ s, env "CELERY_RESULT_BACKEND" = some s →
        BackendConfig.WORKER_CONNECTIONS env = .str s ∧
        BackendConfig.WORKER_CONNECTIONS env = BackendConfig.CELERY_RESULT_BACKEND env) ∧
      (BackendConfig.WORKER_CONNECTIONS env = .int 1000 ↔
        env "CELERY_RESULT_BACKEND" = none) ∧
      ∀ env' : String → Option String,
        env "CELERY_RESULT_BACKEND" = env' "CELERY_RESULT_BACKEND" →
        BackendConfig.WORKER_CONNECTIONS env = BackendConfig.WORKER_CONNECTIONS env' := by
  intro env
  refine ⟨?_, ?_, ?_⟩
  · intro s hs
    constructor
    · simp [BackendConfig.WORKER_CONNECTIONS, BackendConfig.getenv, hs]
    · simp [BackendConfig.WORKER_CONNECTIONS, BackendConfig.CELERY_RESULT_BACKEND,
        BackendConfig.getenv, hs]
  · cases h : env "CELERY_RESULT_BACKEND" with
    | none => simp [BackendConfig.WORKER_CONNECTIONS, BackendConfig.getenv, h]
    | some v => simp [BackendConfig.WORKER_CONNECTIONS, BackendConfig.getenv, h]
  · intro env' hagree
    unfold BackendConfig.WORKER_CONNECTIONS BackendConfig.getenv
    rw [hagree]

/-- C10 witness: with `CELERY_RESULT_BACKEND` set to a result-backend URL,
`WORKER_CONNECTIONS` is that URL string, not a connection count. -/
theorem worker_connections_reads_celery_backend_witness :
    BackendConfig.WORKER_CONNECTIONS envCelery =
      BackendConfig.ConfigVal.str "redis://results" :=
  (((worker_connections_reads_celery_backend envCelery).1 "redis://results") (by decide)).1

/-- C1 counterexample: `fsMissingFirst` is a dataset whose manifest
references id `a` with no image file under `images/` (id `b` has one).
The claim says `ingest` skips `a` with a warning and continues with `b`, so
a sequence is returned; in fact `find_image_ext` raises on the very first
manifest id and `ingest` aborts wholesale, returning nothing. -/
theorem missing_image_aborts_ingest_cex :
    KITTIIngestor.ingest "r" fsMissingFirst = none := by decide

/-- C1 amended: per-image isolation holds only for non-first manifest ids.
When the first manifest id has no image under either extension, the
`find_image_ext` exception aborts the whole ingestion; when the image lookup
fails for any other id, that id's entry in the returned sequence is `None`
(no `ImageDetections` for it, a warning via `message`) and every remaining
id is still processed. -/
theorem missing_image_yields_none_entry :
    ∀ root fs,
      (KITTIIngestor.find_image_ext root fs
          (KITTIIngestor.get_image_ids fs).headI = none →
        KITTIIngestor.ingest root fs = none) ∧
      ∀ ext, KITTIIngestor.find_image_ext root fs
          (KITTIIngestor.get_image_ids fs).headI = some ext →
        KITTIIngestor.ingest root fs =
          some ((KITTIIngestor.get_image_ids fs).map fun i =>
            KITTIIngestor.get_image_detection root fs i ext) ∧
        ∀ i, fs.image (imagePath root i ext) = none →
          KITTIIngestor.get_image_detection root fs i ext = none := by
  intro root fs
  constructor
  · exact KITTIIngestor.ingest_eq_none_of_find root fs
  · intro ext hf
    exact ⟨KITTIIngestor.ingest_eq_some_of_find root fs ext hf,
      fun i hi => KITTIIngestor.get_image_detection_of_image_missing root fs i ext hi⟩

/-- C1 witness: on `fsMissingSecond` (first id `a` fine, id `b` has no
image) ingestion returns a full-length sequence whose `b` entry is `None`. -/
theorem missing_image_yields_none_entry_witness :
    KITTIIngestor.ingest "r" fsMissingSecond =
      some ((KITTIIngestor.get_image_ids fsMissingSecond).map fun i =>
        KITTIIngestor.get_image_detection "r" fsMissingSecond i "png") ∧
    KITTIIngestor.get_image_detection "r" fsMissingSecond "b" "png" = none := by
  have h := ((missing_image_yields_none_entry "r" fsMissingSecond).2 "png" (by decide))
  exact ⟨h.1, h.2 "b" (by decide)⟩

/-- C6 counterexample: in `fsMixedExt` the manifest lists `a` (stored as
`a.png`) and `b` (stored only as `b.jpg`). The claim says each image's file
is located by probing extensions per image, so `b` is found via `jpg`; in
fact the probe happens once for the first id only, `b` is looked up as
`b.png`, and its entry comes back `None` instead of a record. -/
theorem extension_probe_not_per_image_cex :
    (KITTIIngestor.ingest "r" fsMixedExt).map (fun l => l.map Option.isSome) =
      some [true, false] := by decide

/-- C6 amended: `find_image_ext` does try `png` before `jpg` (png preferred
when both exist), but `ingest` calls it only for the first manifest id and
applies that single extension to every image of the dataset; an image stored
under a different extension than the first image's is not found. -/
theorem extension_probe_first_id_only :
    (∀ root fs i, (fs.image (imagePath root i "png")).isSome = true →
      KITTIIngestor.find_image_ext root fs i = some "png") ∧
    (∀ root fs i, fs.image (imagePath root i "png") = none →
      (fs.image (imagePath root i "jpg")).isSome = true →
      KITTIIngestor.find_image_ext root fs i = some "jpg") ∧
    ∀ root fs ext, KITTIIngestor.find_image_ext root fs
        (KITTIIngestor.get_image_ids fs).headI = some ext →
      KITTIIngestor.ingest root fs =
        some ((KITTIIngestor.get_image_ids fs).map fun i =>
          KITTIIngestor.get_image_detection root fs i ext) := by
  refine ⟨?_, ?_, ?_⟩
  · intro root fs i h
    simp [KITTIIngestor.find_image_ext, List.find?, h]
  · intro root fs i h1 h2
    simp [KITTIIngestor.find_image_ext, List.find?, h1, h2]
  · intro root fs ext hf
    exact KITTIIngestor.ingest_eq_some_of_find root fs ext hf

/-- C6 witness: png is preferred when both files exist for an id, and jpg is
found when only the jpg exists. -/
theorem extension_probe_first_id_only_witness :
    KITTIIngestor.find_image_ext "r" fsBothExt "a" = some "png" ∧
    KITTIIngestor.find_image_ext "r" fsJpgOnly "b" = some "jpg" :=
  ⟨extension_probe_first_id_only.1 "r" fsBothExt "a" (by decide),
   extension_probe_first_id_only.2.1 "r" fsJpgOnly "b" (by decide) (by decide)⟩

/-- C4: an image whose source-file copy fails (source missing) is skipped
entirely by `egest`: the manifest holds exactly the ids of the records whose
source image exists, in order; the labels files written are exactly those of
the copy-successful records (so no annotation file, not even a partial one,
is written for a skipped record) and likewise for the copied images; and
every manifest id has a corresponding copied image file and written labels
file among the run's writes. -/
theorem egest_manifest_integrity :
    ∀ (ex : String → Bool) (items : List ImageDetections),
      (KITTIEgestor.egest ex items).manifestLines =
        ((items.filter fun it => ex it.image.path).map fun it => it.image.id) ∧
      (KITTIEgestor.egest ex items).labelFiles =
        ((items.filter fun it => ex it.image.path).map fun it =>
          (it.image.id ++ ".txt", it.detections.map KITTIEgestor.kittiRow)) ∧
      (KITTIEgestor.egest ex items).copiedImages =
        ((items.filter fun it => ex it.image.path).map fun it =>
          (it.image.id ++ pySplitextExt it.image.path, it.image.path)) ∧
      ∀ id ∈ (KITTIEgestor.egest ex items).manifestLines,
        (∃ p, ex p = true ∧
          (id ++ pySplitextExt p, p) ∈ (KITTIEgestor.egest ex items).copiedImages) ∧
        ∃ rows, (id ++ ".txt", rows) ∈ (KITTIEgestor.egest ex items).labelFiles := by
  intro ex items
  refine ⟨KITTIEgestor.egest_manifestLines ex items,
    KITTIEgestor.egest_labelFiles ex items,
    KITTIEgestor.egest_copiedImages ex items, ?_⟩
  intro id hid
  rw [KITTIEgestor.egest_manifestLines] at hid
  obtain ⟨it, hmem, hide⟩ := List.mem_map.mp hid
  have hex : ex it.image.path = true := (List.mem_filter.mp hmem).2
  constructor
  · refine ⟨it.image.path, hex, ?_⟩
    rw [KITTIEgestor.egest_copiedImages]
    exact List.mem_map.mpr ⟨it, hmem, by rw [hide]⟩
  · refine ⟨it.detections.map KITTIEgestor.kittiRow, ?_⟩
    rw [KITTIEgestor.egest_labelFiles]
    exact List.mem_map.mpr ⟨it, hmem, by rw [hide]⟩

/-- C4 witness: for the concrete two-record input (one source image present,
one missing) the surviving manifest id `a` has its copied image and labels
file among the writes. -/
theorem egest_manifest_integrity_witness :
    (∃ p, exEgest p = true ∧
      ("a" ++ pySplitextExt p, p) ∈ (KITTIEgestor.egest exEgest itemsEgest).copiedImages) ∧
    ∃ rows, ("a" ++ ".txt", rows) ∈ (KITTIEgestor.egest exEgest itemsEgest).labelFiles :=
  (egest_manifest_integrity exEgest itemsEgest).2.2.2 "a" (by decide)

/-- C5: identity round-trip. On a well-formed KITTI source (the probed
extension resolves, every manifest id has its image under that extension,
and every labels row is nonempty, parsable and non-degenerate), `ingest`
succeeds on every id, and egesting the ingested records writes a manifest
with identical ids in identical line order and, per id, a labels file whose
rows re-parse to exactly the source file's box coordinates (left, top,
right, bottom), in order — exact rational equality, so within any
floating-point tolerance. -/
theorem kitti_roundtrip_identity :
    ∀ root fs ext,
      KITTIIngestor.find_image_ext root fs
        (KITTIIngestor.get_image_ids fs).headI = some ext →
      (∀ id ∈ KITTIIngestor.get_image_ids fs,
        (fs.image (imagePath root id ext)).isSome = true) →
      (∀ id ∈ KITTIIngestor.get_image_ids fs,
        ∃ rows, fs.labels (labelsPath root id) = some rows ∧
          ∀ r ∈ rows, r ≠ [] ∧
            ∃ x1 y1 x2 y2, boxOf r = some (x1, y1, x2, y2) ∧ x1 < x2 ∧ y1 < y2) →
      KITTIIngestor.ingest root fs =
        some ((ingestedItems root fs ext).map some) ∧
      (ingestedItems root fs ext).map (fun it => it.image.id) =
        KITTIIngestor.get_image_ids fs ∧
      (KITTIEgestor.egest (fun p => (fs.image p).isSome)
          (ingestedItems root fs ext)).manifestLines =
        KITTIIngestor.get_image_ids fs ∧
      List.Forall₂ (fun id e =>
          e.1 = id ++ ".txt" ∧
          ∃ rows, fs.labels (labelsPath root id) = some rows ∧
            (KITTIIngestor.get_detections id e.2).1.map boxQuad =
              rows.filterMap boxOf)
        (KITTIIngestor.get_image_ids fs)
        (KITTIEgestor.egest (fun p => (fs.image p).isSome)
          (ingestedItems root fs ext)).labelFiles := by
  intro root fs ext hf himg hlab
  obtain ⟨recs, hF⟩ := exists_forall₂_of_mem (P := fun id rec =>
      KITTIIngestor.get_image_detection root fs id ext = some rec ∧
      rec.image.id = id ∧ rec.image.path = imagePath root id ext ∧
      ∃ rows, fs.labels (labelsPath root id) = some rows ∧
        rec.detections.map boxQuad = rows.filterMap boxOf)
    (KITTIIngestor.get_image_ids fs)
    (by
      intro id hid
      obtain ⟨rows, hrowseq, hrows⟩ := hlab id hid
      obtain ⟨rec, h1, h2, h3, h4⟩ := get_image_detection_wellformed root fs id ext
        rows (himg id hid) hrowseq hrows
      exact ⟨rec, h1, h2, h3, rows, hrowseq, h4⟩)
  have hmap1 : ((KITTIIngestor.get_image_ids fs).map fun i =>
      KITTIIngestor.get_image_detection root fs i ext) = recs.map some :=
    forall₂_map_eq (hF.imp fun a b h => h.1)
  have hitems : ingestedItems root fs ext = recs := by
    unfold ingestedItems
    rw [hmap1]
    exact reduceOption_map_some recs
  have hids_eq : (KITTIIngestor.get_image_ids fs).map (fun a => a) =
      recs.map fun it => it.image.id :=
    forall₂_map_eq (hF.imp fun a b h => h.2.1.symm)
  rw [List.map_id'] at hids_eq
  have hex : ∀ rec ∈ recs, (fs.image rec.image.path).isSome = true := by
    intro rec hrec
    obtain ⟨id, hid, hR⟩ := forall₂_mem_right hF rec hrec
    rw [hR.2.2.1]
    exact himg id hid
  have hfilter : (recs.filter fun it => (fs.image it.image.path).isSome) = recs :=
    filter_eq_self_of_all _ recs hex
  rw [hitems]
  refine ⟨by rw [KITTIIngestor.ingest_eq_some_of_find root fs ext hf, hmap1],
    hids_eq.symm, ?_, ?_⟩
  · rw [KITTIEgestor.egest_manifestLines, hfilter]
    exact hids_eq.symm
  · rw [KITTIEgestor.egest_labelFiles, hfilter]
    apply List.forall₂_map_right_iff.mpr
    apply hF.imp
    intro id rec h
    obtain ⟨hgid, hid, hpath, rows, hrows, hbox⟩ := h
    refine ⟨by rw [hid], rows, hrows, ?_⟩
    rw [KITTIEgestor.get_detections_reparse, hbox]

/-- C5 witness: on the concrete well-formed dataset the egested manifest
reproduces the source ids in source order. -/
theorem kitti_roundtrip_identity_witness :
    (KITTIEgestor.egest (fun p => (fsRound.image p).isSome)
        (ingestedItems "r" fsRound "png")).manifestLines =
      KITTIIngestor.get_image_ids fsRound :=
  (kitti_roundtrip_identity "r" fsRound "png" (by decide) (by decide)
    (by
      intro id hid
      have h2 : KITTIIngestor.get_image_ids fsRound = ["a", "b"] := by decide
      rw [h2] at hid
      simp only [List.mem_cons, List.not_mem_nil, or_false] at hid
      rcases hid with h | h
      · subst h
        refine ⟨rowsRoundA, by decide, ?_⟩
        intro r hr
        simp only [rowsRoundA, List.mem_cons, List.not_mem_nil, or_false] at hr
        subst hr
        exact ⟨by decide, 1, 1, 5, 6, by decide, by decide, by decide⟩
      · subst h
        refine ⟨rowsRoundB, by decide, ?_⟩
        intro r hr
        simp only [rowsRoundB, List.mem_cons, List.not_mem_nil, or_false] at hr
        rcases hr with h1 | h1
        · subst h1
          exact ⟨by decide, 0, 2, 3, 7, by decide, by decide, by decide⟩
        · subst h1
          exact ⟨by decide, 2, 0, 8, 4, by decide, by decide, by decide⟩)).2.2.1

end VodConverter
